import Mathlib

/-!
Verification development for `napari/utils/colormaps/colormap_utils.py`.

The Python module is shallowly embedded below: machine floats are modelled
as exact rationals (`ℚ`), numpy arrays as lists, Python strings as lists of
characters, and the mutable `AVAILABLE_COLORMAPS` dict as an ordered
association list (insertion ordered, unique keys) threaded explicitly
through the registry operations.  The unbounded `while` loop of
`_color_random` is embedded with an explicit fuel parameter: `none` means
the loop is still running after `fuel` iterations.
-/

/-- Python strings are modelled as lists of characters. -/
abbrev PyStr := List Char

/-- Fractional part `x - floor x`, the embedding of `image_float - np.floor(image_float)`
and of `% 1` on rationals. -/
def frac1 (q : ℚ) : ℚ := q - ⌊q⌋

/-- Constant `phi_mod = 0.6180339887498948482` from `low_discrepancy_image`. -/
def phi_mod : ℚ := 0.6180339887498948482

/-- Constant `phi1 = 1.6180339887498948482` from `_low_discrepancy`. -/
def phi1 : ℚ := 1.6180339887498948482

/-- Constant `phi2 = 1.32471795724474602596` from `_low_discrepancy`. -/
def phi2 : ℚ := 1.32471795724474602596

/-- Constant `phi3 = 1.22074408460575947536` from `_low_discrepancy`. -/
def phi3 : ℚ := 1.22074408460575947536

/-- The additive-recurrence increment `g_d = 1/phi_d` used for dimension
`d ∈ {0,1,2}` (`g = 1 / phi` in `_low_discrepancy`). -/
def gConst : Fin 3 → ℚ
  | 0 => 1 / phi1
  | 1 => 1 / phi2
  | 2 => 1 / phi3

/-- Embedding of `low_discrepancy_image(image, seed, margin)`:
`margin + (1 - 2*margin) * frac(seed + image * phi_mod)` elementwise. -/
def low_discrepancy_image (image : List ℤ) (seed : ℚ := 1/2) (margin : ℚ := 1/256) :
    List ℚ :=
  image.map (fun l : ℤ => margin + (1 - 2 * margin) * frac1 (seed + (l : ℚ) * phi_mod))

/-- Point `i` of the three-dimensional low discrepancy sequence of
`_low_discrepancy(3, n, seed)` with a scalar (broadcast) seed:
`(seed + i * g) % 1` componentwise. -/
def ldPoint (seed : ℚ) (i : ℕ) : ℚ × ℚ × ℚ :=
  (frac1 (seed + i * gConst 0), frac1 (seed + i * gConst 1), frac1 (seed + i * gConst 2))

/-- Embedding of `_low_discrepancy(3, n, seed)` (the only dimensionality used
by `_color_random`). -/
def low_discrepancy3 (n : ℕ) (seed : ℚ) : List (ℚ × ℚ × ℚ) :=
  (List.range n).map (ldPoint seed)

/-- Embedding of `np.clip(x, 0, 1)` on one channel. -/
def clip01 (x : ℚ) : ℚ := max 0 (min 1 x)

/-- Row validity test of `_validate_rgb`: every channel strictly between
`lo = 0 - tolerance` and `hi = 1 + tolerance`. -/
def validRGB (tol : ℚ) (c : ℚ × ℚ × ℚ) : Bool :=
  decide (0 - tol < c.1 ∧ c.1 < 1 + tol) &&
  decide (0 - tol < c.2.1 ∧ c.2.1 < 1 + tol) &&
  decide (0 - tol < c.2.2 ∧ c.2.2 < 1 + tol)

/-- Embedding of `_validate_rgb(colors, tolerance)`: keep the rows whose
channels are all strictly inside `(0 - tolerance, 1 + tolerance)` and clip
the survivors to `[0, 1]`. -/
def validate_rgb (colors : List (ℚ × ℚ × ℚ)) (tol : ℚ) : List (ℚ × ℚ × ℚ) :=
  (colors.filter (validRGB tol)).map (fun c => (clip01 c.1, clip01 c.2.1, clip01 c.2.2))

/-- Constant `LUVMIN` from the source. -/
def LUVMIN : ℚ × ℚ × ℚ := (0, -83.07790815, -134.09790293)

/-- Constant `LUVMAX` from the source. -/
def LUVMAX : ℚ × ℚ × ℚ := (100, 175.01447356, 107.39905336)

/-- Constant `LUVRNG = LUVMAX - LUVMIN` from the source. -/
def LUVRNG : ℚ × ℚ × ℚ :=
  (LUVMAX.1 - LUVMIN.1, LUVMAX.2.1 - LUVMIN.2.1, LUVMAX.2.2 - LUVMIN.2.2)

/-- Constant `LABMIN` from the source. -/
def LABMIN : ℚ × ℚ × ℚ := (0, -86.18302974, -107.85730021)

/-- Constant `LABMAX` from the source. -/
def LABMAX : ℚ × ℚ × ℚ := (100, 98.23305386, 94.47812228)

/-- Constant `LABRNG = LABMAX - LABMIN` from the source. -/
def LABRNG : ℚ × ℚ × ℚ :=
  (LABMAX.1 - LABMIN.1, LABMAX.2.1 - LABMIN.2.1, LABMAX.2.2 - LABMIN.2.2)

/-- Componentwise `random * rng + mn`, the box scaling applied in
`_color_random` before colorspace conversion. -/
def scale3 (p rng mn : ℚ × ℚ × ℚ) : ℚ × ℚ × ℚ :=
  (p.1 * rng.1 + mn.1, p.2.1 * rng.2.1 + mn.2.1, p.2.2 * rng.2.2 + mn.2.2)

/-- The three colorspace values accepted by `_color_random` ('lab' is the
default; unknown strings also take the 'lab' branch in the source). -/
inductive Colorspace
  | lab
  | luv
  | rgb
deriving DecidableEq

/-- Modelled from the spec: the forward conversions `colorconv.lab2rgb` and
`colorconv.luv2rgb` live in the vendored `colorconv` module, which is not
under `src/`, and the spec fixes no formula for them — only that they are
non-linear conversions to linear RGB under which roughly 1/5 of box-sampled
candidates land inside the displayable gamut (the source itself says
"about 1/5 of random LUV tuples are inside the space").  The sampler is
therefore parametrized by the two conversion functions `labc` and `luvc`,
and every theorem about it quantifies over them, carrying the spec's
acceptance guarantee as an explicit hypothesis wherever termination of the
rejection loop is at stake.  `rawCandidates` is the candidate list of one
pass of the loop: box-scale the quasirandom points and convert, or use the
raw points directly for 'rgb'. -/
def rawCandidates (labc luvc : ℚ × ℚ × ℚ → ℚ × ℚ × ℚ) (cspace : Colorspace)
    (m : ℕ) (seed : ℚ) : List (ℚ × ℚ × ℚ) :=
  let random := low_discrepancy3 m seed
  match cspace with
  | .luv => random.map (fun p => luvc (scale3 p LUVRNG LUVMIN))
  | .rgb => random
  | .lab => random.map (fun p => labc (scale3 p LABRNG LABMIN))

/-- One pass of the rejection-sampling `while` loop of `_color_random`,
with explicit fuel.  Each iteration draws `n * factor` quasirandom points,
converts them to RGB according to the colorspace, filters them with
`_validate_rgb`, and either returns the first `n` valid colors or doubles
`factor` and retries.  `none` means the loop is still running after `fuel`
iterations (the source loop has no bound). -/
def colorRandomLoop (labc luvc : ℚ × ℚ × ℚ → ℚ × ℚ × ℚ) (n : ℕ)
    (cspace : Colorspace) (tol seed : ℚ) :
    ℕ → ℕ → Option (List (ℚ × ℚ × ℚ))
  | 0, _ => none
  | fuel + 1, factor =>
    let raw_rgb := rawCandidates labc luvc cspace (n * factor) seed
    let rgb := validate_rgb raw_rgb tol
    if n ≤ rgb.length then some (rgb.take n)
    else colorRandomLoop labc luvc n cspace tol seed fuel (factor * 2)

/-- Embedding of `_color_random(n, colorspace, tolerance, seed)`; the loop
starts with `factor = 6`. -/
def color_random (labc luvc : ℚ × ℚ × ℚ → ℚ × ℚ × ℚ) (fuel : ℕ) (n : ℕ)
    (cspace : Colorspace := .lab) (tol : ℚ := 0) (seed : ℚ := 1/2) :
    Option (List (ℚ × ℚ × ℚ)) :=
  colorRandomLoop labc luvc n cspace tol seed fuel 6

/-- Modelled from the spec: a concrete non-linear stand-in for the missing
`colorconv.lab2rgb`, used only to instantiate witnesses and
counterexamples at concrete inputs (no theorem about all seeds relies on
it).  Following the spec's description that only about 1/5 of box-sampled
candidates survive the gamut filter, it cubes a fivefold stretch of the
first channel about the box, so a candidate is in gamut only when its
first box coordinate lies in the middle fifth `(2/5, 3/5)`. -/
def lab2rgbModel (p : ℚ × ℚ × ℚ) : ℚ × ℚ × ℚ :=
  ((5 * ((p.1 - LABMIN.1) / LABRNG.1) - 2) ^ 3,
   (p.2.1 - LABMIN.2.1) / LABRNG.2.1,
   (p.2.2 - LABMIN.2.2) / LABRNG.2.2)

/-- Modelled from the spec: the stand-in for the missing
`colorconv.luv2rgb`, exactly as `lab2rgbModel` but for the LUV box. -/
def luv2rgbModel (p : ℚ × ℚ × ℚ) : ℚ × ℚ × ℚ :=
  ((5 * ((p.1 - LUVMIN.1) / LUVRNG.1) - 2) ^ 3,
   (p.2.1 - LUVMIN.2.1) / LUVRNG.2.1,
   (p.2.2 - LUVMIN.2.2) / LUVRNG.2.2)

/-- Embedding of `np.linspace(a, b, num)` (with endpoint): `num` evenly
spaced rationals from `a` to `b` inclusive. -/
def linspace (a b : ℚ) (num : ℕ) : List ℚ :=
  if num = 1 then [a]
  else (List.range num).map (fun i : ℕ => a + (i : ℚ) * ((b - a) / ((num : ℚ) - 1)))

/-- The `interpolation` field of a colormap: `linear` or zero-order-hold. -/
inductive Interp
  | linear
  | zero
deriving DecidableEq

/-- The external `Colormap` value type (napari's `Colormap` class is not
under `src/`; per the spec it exposes exactly the fields `name`, `colors`,
`controls` and `interpolation`). -/
structure Colormap where
  name : PyStr
  colors : List (List ℚ)
  controls : List ℚ
  interpolation : Interp
deriving DecidableEq

/-- Embedding of `label_colormap(num_colors, seed)`: controls are
`[0] ++ linspace(0.00001, 1 - 0.00001, num_colors - 1) ++ [1.0]`, colors are
the `num_colors` sampled RGB colors with an alpha channel of 1 appended and
the first row overwritten to all zeros, interpolation is zero-order-hold. -/
def label_colormap (labc luvc : ℚ × ℚ × ℚ → ℚ × ℚ × ℚ) (fuel : ℕ)
    (num_colors : ℕ := 256) (seed : ℚ := 1/2) : Option Colormap :=
  let midpoints := linspace 0.00001 (1 - 0.00001) (num_colors - 1)
  let control_points := 0 :: (midpoints ++ [1])
  (color_random labc luvc fuel num_colors .lab 0 seed).map (fun rgbs =>
    let colors0 := rgbs.map (fun c => [c.1, c.2.1, c.2.2, 1])
    let colors :=
      match colors0 with
      | [] => []
      | _ :: rest => [0, 0, 0, 0] :: rest
    { name := "label_colormap".toList, colors := colors,
      controls := control_points, interpolation := .zero })

/-- Python exception kinds raised by the module (spec error kinds:
`NotFound` is `keyError`, `InvalidArgument` is `valueError`, `TypeMismatch`
is `typeError`). -/
inductive PyErr
  | keyError
  | typeError
  | valueError
  | zeroDivisionError
deriving DecidableEq

/-- Lexicographic strict order on color rows, used to embed the row sorting
performed by `np.unique(..., axis=0)`. -/
def rowLt : List ℚ → List ℚ → Bool
  | [], [] => false
  | [], _ :: _ => true
  | _ :: _, [] => false
  | a :: s, b :: t => if a < b then true else if b < a then false else rowLt s t

/-- Insertion step of the row sort. -/
def sortInsert (x : List ℚ) : List (List ℚ) → List (List ℚ)
  | [] => [x]
  | y :: ys => if rowLt y x then y :: sortInsert x ys else x :: y :: ys

/-- Insertion sort on rows. -/
def sortRows : List (List ℚ) → List (List ℚ)
  | [] => []
  | x :: xs => sortInsert x (sortRows xs)

/-- Embedding of `np.unique(rows, axis=0)`: the distinct rows in sorted
order. -/
def npUnique (l : List (List ℚ)) : List (List ℚ) := sortRows l.dedup

/-- Modelled from the spec: the external `Colormap` constructor applied to a
bare color table (`Colormap(control_colors)` / the `colors` kwarg), with the
"basic validation" the spec attributes to it: an empty color table is
rejected; `controls` default to empty (meaning "evenly spaced") and
`interpolation` defaults to linear. -/
def colormapOfColors (table : List (List ℚ)) : Except PyErr Colormap :=
  if table = [] then .error .valueError
  else .ok { name := "custom".toList, colors := table, controls := [],
             interpolation := .linear }

/-- Embedding of `color_dict_to_colormap(colors)`.  The dict comprehension
`{tuple(ctrl): i / (len(control_colors) - 1) ...}` raises
`ZeroDivisionError` exactly when it iterates (the unique color list is
nonempty) and `len(control_colors) - 1 == 0`. -/
def color_dict_to_colormap (colors : List (ℤ × List ℚ)) :
    Except PyErr (Colormap × List (ℤ × ℚ)) := do
  let control_colors := npUnique (colors.map Prod.snd)
  let colormap ← colormapOfColors control_colors
  if control_colors.length = 1 then
    .error .zeroDivisionError
  else
    let control2index := control_colors.enum.map
      (fun p => (p.2, (p.1 : ℚ) / ((control_colors.length : ℚ) - 1)))
    let label_color_index := colors.map
      (fun p => (p.1,
        ((control2index.find? (fun q => decide (q.1 = p.2))).map Prod.snd).getD 0))
    .ok (colormap, label_color_index)

deriving instance DecidableEq for Except

/-- Embedding of Python `s.startswith(pre)`. -/
def strStartsWith : PyStr → PyStr → Bool
  | _, [] => true
  | [], _ :: _ => false
  | c :: s, d :: pre => decide (c = d) && strStartsWith s pre

/-- Decimal digit character. -/
def digitChar (d : ℕ) : Char := Char.ofNat (48 + d)

/-- Decimal representation of a natural number as characters (the embedding
of Python's string formatting of `len(past_names)`). -/
def natChars (n : ℕ) : List Char :=
  if _h : n < 10 then [digitChar n]
  else natChars (n / 10) ++ [digitChar (n % 10)]
decreasing_by exact Nat.div_lt_self (by omega) (by omega)

/-- The literal `'[unnamed colormap]'`. -/
def unnamedBase : PyStr := "[unnamed colormap]".toList

/-- The literal `'[unnamed colormap'` used for the startswith test. -/
def unnamedPre : PyStr := "[unnamed colormap".toList

/-- The formatted name `f'[unnamed colormap k'` followed by a closing
bracket. -/
def bracketName (k : ℕ) : PyStr := "[unnamed colormap ".toList ++ natChars k ++ [']']

/-- Embedding of `increment_unnamed_colormap(existing, name)`. -/
def increment_unnamed_colormap (existing : List PyStr)
    (nm : PyStr := unnamedBase) : PyStr :=
  if nm = unnamedBase then
    bracketName (existing.filter (fun s => strStartsWith s unnamedPre)).length
  else nm

/-- The registry state: the ordered `AVAILABLE_COLORMAPS` dict, modelled as
an insertion-ordered association list. -/
abbrev Registry := List (PyStr × Colormap)

/-- The keys of the registry in iteration order. -/
def dictKeys (R : Registry) : List PyStr := R.map Prod.fst

/-- Python dict assignment `R[k] = v`: overwrite in place if the key
exists, otherwise append at the end of the iteration order. -/
def dictSet (R : Registry) (k : PyStr) (v : Colormap) : Registry :=
  if (dictKeys R).contains k then R.map (fun p => if p.1 = k then (k, v) else p)
  else R ++ [(k, v)]

/-- A foreign (vispy-style) colormap object: an external color table that
may or may not expose `_controls` and `interpolation` (the `hasattr` tests
in `convert_vispy_colormap`). -/
structure VispyCmap where
  colors : List (List ℚ)
  controls : Option (List ℚ)
  interpolation : Option Interp
deriving DecidableEq

/-- Embedding of `convert_vispy_colormap(colormap, name)`: missing
`_controls` becomes the empty array, missing `interpolation` becomes
linear. -/
def convert_vispy_colormap (colormap : VispyCmap) (nm : PyStr := "vispy".toList) :
    Colormap :=
  { name := nm, colors := colormap.colors,
    controls := colormap.controls.getD [],
    interpolation := colormap.interpolation.getD .linear }

/-- Modelled from the spec: the equality `colormap == val` between a foreign
(vispy-style) colormap and a stored `Colormap` value — the spec's "search
existing registry values for structural equality ... dedup by value, not by
identity".  The actual `==` semantics live in the external vispy class and
the napari `Colormap` class, neither of which is under `src/`; structural
equality compares the canonical shape fields (colors, controls,
interpolation), ignoring the name tag. -/
def vispyEqColormap (v : VispyCmap) (c : Colormap) : Bool :=
  decide (v.colors = c.colors) && decide (v.controls.getD [] = c.controls) &&
  decide (v.interpolation.getD .linear = c.interpolation)

/-- Names of the six primary colors, from the source. -/
def primary_color_names : List PyStr :=
  ["red", "green", "blue", "cyan", "magenta", "yellow"].map String.toList

/-- The six primary color vectors, from the source. -/
def primary_colors : List (List ℚ) :=
  [[1, 0, 0], [0, 1, 0], [0, 0, 1], [0, 1, 1], [1, 0, 1], [1, 1, 0]]

/-- Embedding of `SIMPLE_COLORMAPS`: one two-point colormap per primary
color. -/
def SIMPLE_COLORMAPS : List (PyStr × Colormap) :=
  List.zipWith
    (fun nm c => (nm, { name := nm, colors := [[0, 0, 0], c], controls := [],
                        interpolation := Interp.linear }))
    primary_color_names primary_colors

/-- Modelled from the spec: `ALL_COLORMAPS` additionally merges the
matplotlib catalog (read from a data file) and the bop catalog, external
palette data not under `src/`; only the six `SIMPLE_COLORMAPS` built from
source constants are modelled. -/
def ALL_COLORMAPS : List (PyStr × Colormap) := SIMPLE_COLORMAPS

/-- Lexicographic strict order on names (Python string `<`). -/
def nameLtB : PyStr → PyStr → Bool
  | [], [] => false
  | [], _ :: _ => true
  | _ :: _, [] => false
  | c :: s, d :: t => if c < d then true else if d < c then false else nameLtB s t

/-- Insertion step of the name sort of `dict(sorted(ALL_COLORMAPS.items()))`. -/
def sortPairsInsert (x : PyStr × Colormap) : Registry → Registry
  | [] => [x]
  | y :: ys => if nameLtB y.1 x.1 then y :: sortPairsInsert x ys else x :: y :: ys

/-- Insertion sort of registry pairs by name, embedding
`dict(sorted(ALL_COLORMAPS.items()))`. -/
def sortPairs : Registry → Registry
  | [] => []
  | x :: xs => sortPairsInsert x (sortPairs xs)

/-- Embedding of the initial `AVAILABLE_COLORMAPS` registry state. -/
def AVAILABLE_COLORMAPS : Registry := sortPairs ALL_COLORMAPS

/-- Items of a Python tuple passed as a colormap argument. -/
inductive TupItem
  | s (nm : PyStr)
  | v (vc : VispyCmap)
  | c (cm : Colormap)
  | junk
deriving DecidableEq

/-- Values of a Python dict passed as a colormap argument: a vispy
colormap, a napari colormap, or raw (non-colormap) data such as a bare
color table. -/
inductive DictVal
  | v (vc : VispyCmap)
  | c (cm : Colormap)
  | raw (table : List (List ℚ))
deriving DecidableEq

/-- The `ValidColormapArg` union accepted by `ensure_colormap`. -/
inductive CmArg
  | str (nm : PyStr)
  | cm (c : Colormap)
  | vispy (vc : VispyCmap)
  | tup (items : List TupItem)
  | dict (entries : List (PyStr × DictVal))
  | other
deriving DecidableEq

/-- Modelled from the spec: `vispy_or_mpl_colormap` consults the external
vispy and matplotlib palette catalogs, which are not under `src/`; it is
modelled as lookup in a fixed finite catalog, raising `KeyError` (the
spec's `NotFound`) for absent names. -/
def builtinCatalog : List (PyStr × Colormap) :=
  [("gray".toList,
    { name := "gray".toList, colors := [[0, 0, 0, 1], [1, 1, 1, 1]],
      controls := [], interpolation := .linear })]

/-- Embedding of `vispy_or_mpl_colormap(name)` over the modelled catalog. -/
def vispy_or_mpl_colormap (nm : PyStr) : Except PyErr Colormap :=
  match builtinCatalog.find? (fun p => decide (p.1 = nm)) with
  | some p => .ok { p.2 with name := nm }
  | none => .error .keyError

/-- Modelled from the spec: `Colormap(**colormap)` construction from a
mapping carrying a raw `colors` entry; only the `colors` kwarg is
modelled, with the constructor's basic validation. -/
def colormapKwargs (entries : List (PyStr × DictVal)) : Except PyErr Colormap :=
  match entries.find? (fun p => decide (p.1 = "colors".toList)) with
  | some (_, DictVal.raw table) => colormapOfColors table
  | _ => .error .typeError

/-- The test `'colors' in colormap and not isinstance(colormap['colors'], VispyColormap or Colormap)`
of the dict branch of `ensure_colormap`: the mapping carries a `colors` key
whose value is raw (non-colormap) data. -/
def dictHasRawColors (entries : List (PyStr × DictVal)) : Bool :=
  match entries.find? (fun p => decide (p.1 = "colors".toList)) with
  | some (_, DictVal.raw _) => true
  | _ => false

/-- The test `not isinstance(i, (VispyColormap, Colormap))` for one dict
value. -/
def isRawVal (p : PyStr × DictVal) : Bool :=
  match p.2 with
  | DictVal.raw _ => true
  | _ => false

/-- The conversion loop of the dict branch: each value is converted to a
canonical `Colormap` named after its key. -/
def dictConvert (entries : List (PyStr × DictVal)) : List (PyStr × Colormap) :=
  entries.map (fun p =>
    (p.1,
      match p.2 with
      | DictVal.v vc => convert_vispy_colormap vc p.1
      | DictVal.c c => { c with name := p.1 }
      | DictVal.raw _ =>
        { name := p.1, colors := [], controls := [], interpolation := Interp.linear }))

/-- `AVAILABLE_COLORMAPS.update(colormap)` for the converted dict. -/
def dictUpdate (R : Registry) (entries : List (PyStr × DictVal)) : Registry :=
  (dictConvert entries).foldl (fun r q => dictSet r q.1 q.2) R

/-- The `isinstance(colormap, VispyColormap)` branch of `ensure_colormap`:
scan the registry for a value equal to the foreign colormap (Python
truthiness: a found name that is the empty string counts as not found),
otherwise synthesize an auto-incremented unnamed name; then convert and
store. -/
def ensure_vispy (R : Registry) (vc : VispyCmap) : Except PyErr PyStr × Registry :=
  let found := (R.find? (fun p => vispyEqColormap vc p.2)).map Prod.fst
  let nm :=
    match found with
    | none => increment_unnamed_colormap (dictKeys R)
    | some k => if k = [] then increment_unnamed_colormap (dictKeys R) else k
  (.ok nm, dictSet R nm (convert_vispy_colormap vc nm))

/-- Embedding of `ensure_colormap(colormap)`.  The registry is threaded
explicitly; the result is the canonical name (the source function returns
`AVAILABLE_COLORMAPS[name]`, whose `name` field equals this) or the raised
exception, together with the registry state after the call.  The warning
emitted for a multi-entry dict is not modelled. -/
def ensure_colormap (R : Registry) (colormap : CmArg) :
    Except PyErr PyStr × Registry :=
  match colormap with
  | .str nm =>
    if (dictKeys R).contains nm then (.ok nm, R)
    else
      match vispy_or_mpl_colormap nm with
      | .error e => (.error e, R)
      | .ok cmap => (.ok nm, dictSet R nm cmap)
  | .cm c => (.ok c.name, dictSet R c.name c)
  | .vispy vc => ensure_vispy R vc
  | .tup items =>
    match items with
    | [TupItem.s nm, TupItem.v vc] =>
      (.ok nm, dictSet R nm (convert_vispy_colormap vc nm))
    | [TupItem.s nm, TupItem.c c] =>
      (.ok nm, dictSet R nm { c with name := nm })
    | _ => (.error .typeError, R)
  | .dict entries =>
    if dictHasRawColors entries then
      match colormapKwargs entries with
      | .error e => (.error e, R)
      | .ok cmap => (.ok cmap.name, dictSet R cmap.name cmap)
    else if entries.any isRawVal then (.error .typeError, R)
    else
      match entries with
      | [] => (.error .valueError, dictUpdate R entries)
      | e :: _ => (.ok e.1, dictUpdate R entries)
  | .other => (.error .typeError, R)

/-! ## Basic facts about the fractional part -/

theorem frac1_eq_fract (q : ℚ) : frac1 q = Int.fract q := rfl

theorem frac1_nonneg (q : ℚ) : 0 ≤ frac1 q := Int.fract_nonneg q

theorem frac1_lt_one (q : ℚ) : frac1 q < 1 := Int.fract_lt_one q

theorem frac1_eq_zero_iff (q : ℚ) : frac1 q = 0 ↔ ∃ z : ℤ, q = z := by
  rw [frac1_eq_fract, Int.fract_eq_iff]
  constructor
  · rintro ⟨-, -, z, hz⟩
    exact ⟨z, by linarith⟩
  · rintro ⟨z, hz⟩
    exact ⟨le_refl 0, by norm_num, z, by rw [hz]; ring⟩

/-! ## C3: range of `low_discrepancy_image` -/

/-- C3 (amended): for every label image, every seed, and every margin in
`(0, 1/2)`, each output of `low_discrepancy_image` lies in the half-open
interval `[margin, 1 - margin)`: it is never equal to `1 - margin`, to `0`,
or to `1`, but it can equal `margin` exactly (see the counterexample). -/
theorem low_discrepancy_image_range (image : List ℤ) (seed margin : ℚ)
    (h0 : 0 < margin) (h2 : margin < 1/2) :
    ∀ x ∈ low_discrepancy_image image seed margin,
      margin ≤ x ∧ x < 1 - margin ∧ 0 < x ∧ x < 1 := by
  intro x hx
  simp only [low_discrepancy_image, List.mem_map] at hx
  obtain ⟨l, -, rfl⟩ := hx
  set f := frac1 (seed + l * phi_mod) with hf
  have hf0 : 0 ≤ f := frac1_nonneg _
  have hf1 : f < 1 := frac1_lt_one _
  have hm : 0 < 1 - 2 * margin := by linarith
  have hlow : 0 ≤ (1 - 2 * margin) * f := mul_nonneg (le_of_lt hm) hf0
  have hhigh : (1 - 2 * margin) * f < 1 - 2 * margin := by
    calc (1 - 2 * margin) * f < (1 - 2 * margin) * 1 := by
          exact mul_lt_mul_of_pos_left hf1 hm
      _ = 1 - 2 * margin := mul_one _
  refine ⟨by linarith, by linarith, by linarith, by linarith⟩

/-- C3 witness: concrete instantiation of `low_discrepancy_image_range`. -/
theorem low_discrepancy_image_range_witness :
    (0 < (1/4 : ℚ) ∧ (1/4 : ℚ) < 1/2) ∧
      ∀ x ∈ low_discrepancy_image [3, -5] (1/2) (1/4),
        (1/4 : ℚ) ≤ x ∧ x < 1 - 1/4 ∧ 0 < x ∧ x < 1 :=
  ⟨⟨by norm_num, by norm_num⟩,
    low_discrepancy_image_range [3, -5] (1/2) (1/4) (by norm_num) (by norm_num)⟩

/-- C3 counterexample: with `image = [0]`, `seed = 0` and `margin = 1/4`,
the single output is exactly `margin`, refuting "no output is ever exactly
equal to margin". -/
theorem low_discrepancy_image_hits_margin :
    low_discrepancy_image [0] 0 (1/4) = [1/4] := by
  with_unfolding_all decide

/-! ## C2: the rejection-sampling loop has no retry bound -/

theorem validRGB_neg_one (c : ℚ × ℚ × ℚ) : validRGB (-1) c = false := by
  have h1 : ¬ (0 - (-1 : ℚ) < c.1 ∧ c.1 < 1 + (-1)) := by
    rintro ⟨ha, hb⟩
    linarith
  simp only [validRGB, decide_eq_false h1, Bool.false_and]

theorem validate_rgb_neg_one (l : List (ℚ × ℚ × ℚ)) : validate_rgb l (-1) = [] := by
  induction l with
  | nil => rfl
  | cons c t ih =>
    simp only [validate_rgb, List.filter_cons, validRGB_neg_one, if_neg] at *
    simpa [validate_rgb] using ih

/-- C2: the rejection-sampling loop of `_color_random` has no retry budget
at all.  With the pathological tolerance `-1` no candidate color is ever
valid, and the loop makes no progress no matter how many iterations it is
allowed: the source `while` loop never terminates and no `GamutExhausted`
error is ever raised. -/
theorem color_random_no_retry_bound (labc luvc : ℚ × ℚ × ℚ → ℚ × ℚ × ℚ)
    (fuel factor : ℕ) :
    colorRandomLoop labc luvc 1 .rgb (-1) (1/2) fuel factor = none := by
  induction fuel generalizing factor with
  | zero => rfl
  | succ fuel ih =>
    simp only [colorRandomLoop, validate_rgb_neg_one]
    exact ih (factor * 2)


/-! ## Counting valid points in one sampling pass -/

set_option maxRecDepth 200000

theorem gConst_den_ge (d : Fin 3) : 18 ≤ (gConst d).den := by
  fin_cases d <;> with_unfolding_all decide

theorem den_dvd_of_mul_int (g : ℚ) (d k : ℤ) (h : (d : ℚ) * g = (k : ℚ)) :
    (g.den : ℤ) ∣ d := by
  have hg : (g.num : ℚ) / (g.den : ℚ) = g := Rat.num_div_den g
  have hden0 : ((g.den : ℚ)) ≠ 0 := by
    have := g.pos
    exact_mod_cast by omega
  have hmul : g * (g.den : ℚ) = (g.num : ℚ) := ((div_eq_iff hden0).mp hg).symm
  have h2 : (d : ℚ) * (g.num : ℚ) = (k : ℚ) * (g.den : ℚ) := by
    rw [← hmul, ← mul_assoc, h]
  have h3 : d * g.num = k * (g.den : ℤ) := by exact_mod_cast h2
  have hdvd : (g.den : ℤ) ∣ d * g.num := ⟨k, by rw [h3, mul_comm]⟩
  have hcop : Int.gcd (g.den : ℤ) g.num = 1 := by
    simpa [Int.gcd] using (g.reduced).symm
  exact Int.dvd_of_dvd_mul_left_of_gcd_one hdvd hcop

/-- The indices `i < m` whose quasirandom coordinate `frac1 (seed + i*g)`
is exactly zero (the only way a channel of a point of `low_discrepancy3`
can fall outside `(0 - tol, 1 + tol)` for `tol ≥ 0`). -/
def badSet (seed g : ℚ) (m : ℕ) : Finset ℕ :=
  (Finset.range m).filter (fun i => frac1 (seed + i * g) = 0)

theorem badSet_mod_eq (seed g : ℚ) (m : ℕ) {i j : ℕ}
    (hi : i ∈ badSet seed g m) (hj : j ∈ badSet seed g m) :
    i % g.den = j % g.den := by
  simp only [badSet, Finset.mem_filter, Finset.mem_range] at hi hj
  obtain ⟨-, hi⟩ := hi
  obtain ⟨-, hj⟩ := hj
  rw [frac1_eq_zero_iff] at hi hj
  obtain ⟨zi, hzi⟩ := hi
  obtain ⟨zj, hzj⟩ := hj
  have h : (((i : ℤ) - (j : ℤ) : ℤ) : ℚ) * g = (((zi - zj : ℤ)) : ℚ) := by
    push_cast
    linear_combination hzi - hzj
  have hdvd := den_dvd_of_mul_int g _ _ h
  have hmod : j ≡ i [MOD g.den] := (Nat.modEq_iff_dvd).mpr hdvd
  exact hmod.symm

theorem badSet_card_le (seed g : ℚ) (m : ℕ) (hm : 1 ≤ m) :
    (badSet seed g m).card ≤ (m - 1) / g.den + 1 := by
  classical
  rw [← Finset.card_range ((m - 1) / g.den + 1)]
  apply Finset.card_le_card_of_injOn (fun i => i / g.den)
  · intro i hi
    have him : i < m := by
      have := (Finset.mem_filter.mp hi).1
      simpa using this
    simp only [Finset.mem_range]
    have : i / g.den ≤ (m - 1) / g.den := Nat.div_le_div_right (by omega)
    omega
  · intro i hi j hj hij
    have hmod := badSet_mod_eq seed g m hi hj
    have h1 := Nat.div_add_mod i g.den
    have h2 := Nat.div_add_mod j g.den
    simp only at hij
    rw [← hij] at h2
    rw [← hmod] at h2
    omega

theorem countP_range_eq_card (p : ℕ → Bool) (m : ℕ) :
    (List.range m).countP p = ((Finset.range m).filter (fun i => p i = true)).card := by
  classical
  induction m with
  | zero => rfl
  | succ m ih =>
    rw [List.range_succ, List.countP_append, Finset.range_succ, Finset.filter_insert]
    by_cases h : p m = true
    · rw [if_pos h, Finset.card_insert_of_not_mem (by simp)]
      simp [List.countP_cons, h, ih]
    · rw [if_neg h]
      simp [List.countP_cons, h, ih]

theorem validRGB_ldPoint_of_ne_zero (tol seed : ℚ) (htol : 0 ≤ tol) (i : ℕ)
    (h0 : frac1 (seed + i * gConst 0) ≠ 0)
    (h1 : frac1 (seed + i * gConst 1) ≠ 0)
    (h2 : frac1 (seed + i * gConst 2) ≠ 0) :
    validRGB tol (ldPoint seed i) = true := by
  have p0 := lt_of_le_of_ne (frac1_nonneg (seed + i * gConst 0)) (Ne.symm h0)
  have p1 := lt_of_le_of_ne (frac1_nonneg (seed + i * gConst 1)) (Ne.symm h1)
  have p2 := lt_of_le_of_ne (frac1_nonneg (seed + i * gConst 2)) (Ne.symm h2)
  have q0 := frac1_lt_one (seed + i * gConst 0)
  have q1 := frac1_lt_one (seed + i * gConst 1)
  have q2 := frac1_lt_one (seed + i * gConst 2)
  simp only [validRGB, ldPoint, Bool.and_eq_true, decide_eq_true_eq]
  exact ⟨⟨⟨by linarith, by linarith⟩, ⟨by linarith, by linarith⟩⟩,
    ⟨by linarith, by linarith⟩⟩

theorem valid_count_ge (n : ℕ) (hn : 1 ≤ n) (tol seed : ℚ) (htol : 0 ≤ tol) :
    n ≤ (List.range (n * 6)).countP (fun i => validRGB tol (ldPoint seed i)) := by
  classical
  set m := n * 6 with hm
  rw [countP_range_eq_card]
  have hsplit :
      ((Finset.range m).filter (fun i => validRGB tol (ldPoint seed i) = true)).card
        + ((Finset.range m).filter (fun i => ¬ (validRGB tol (ldPoint seed i) = true))).card
        = m := by
    rw [Finset.filter_card_add_filter_neg_card_eq_card, Finset.card_range]
  have hsub :
      (Finset.range m).filter (fun i => ¬ (validRGB tol (ldPoint seed i) = true))
        ⊆ badSet seed (gConst 0) m ∪ badSet seed (gConst 1) m ∪ badSet seed (gConst 2) m := by
    intro i hi
    simp only [Finset.mem_filter, Finset.mem_range] at hi
    obtain ⟨him, hinv⟩ := hi
    simp only [Finset.mem_union, badSet, Finset.mem_filter, Finset.mem_range]
    by_cases h0 : frac1 (seed + i * gConst 0) = 0
    · exact Or.inl (Or.inl ⟨him, h0⟩)
    by_cases h1 : frac1 (seed + i * gConst 1) = 0
    · exact Or.inl (Or.inr ⟨him, h1⟩)
    by_cases h2 : frac1 (seed + i * gConst 2) = 0
    · exact Or.inr ⟨him, h2⟩
    · exact absurd (validRGB_ldPoint_of_ne_zero tol seed htol i h0 h1 h2) hinv
  have hm1 : 1 ≤ m := by omega
  have hb0 := badSet_card_le seed (gConst 0) m hm1
  have hb1 := badSet_card_le seed (gConst 1) m hm1
  have hb2 := badSet_card_le seed (gConst 2) m hm1
  have hden0 := gConst_den_ge 0
  have hden1 := gConst_den_ge 1
  have hden2 := gConst_den_ge 2
  have hd0 : (m - 1) / (gConst 0).den ≤ (m - 1) / 18 :=
    Nat.div_le_div_left hden0 (by omega)
  have hd1 : (m - 1) / (gConst 1).den ≤ (m - 1) / 18 :=
    Nat.div_le_div_left hden1 (by omega)
  have hd2 : (m - 1) / (gConst 2).den ≤ (m - 1) / 18 :=
    Nat.div_le_div_left hden2 (by omega)
  have hcard : ((Finset.range m).filter
      (fun i => ¬ (validRGB tol (ldPoint seed i) = true))).card
        ≤ (badSet seed (gConst 0) m).card + (badSet seed (gConst 1) m).card
          + (badSet seed (gConst 2) m).card := by
    calc ((Finset.range m).filter (fun i => ¬ (validRGB tol (ldPoint seed i) = true))).card
        ≤ (badSet seed (gConst 0) m ∪ badSet seed (gConst 1) m
            ∪ badSet seed (gConst 2) m).card := Finset.card_le_card hsub
      _ ≤ (badSet seed (gConst 0) m ∪ badSet seed (gConst 1) m).card
            + (badSet seed (gConst 2) m).card := Finset.card_union_le _ _
      _ ≤ (badSet seed (gConst 0) m).card + (badSet seed (gConst 1) m).card
            + (badSet seed (gConst 2) m).card := by
          have := Finset.card_union_le (badSet seed (gConst 0) m) (badSet seed (gConst 1) m)
          omega
  have h18 : (m - 1) / 18 ≤ m / 18 := Nat.div_le_div_right (by omega)
  have h618 : m / 18 = m / 6 / 3 := by rw [Nat.div_div_eq_div_mul]
  have h63 : m / 6 / 3 * 3 ≤ m / 6 := Nat.div_mul_le_self _ 3
  have hm6 : m / 6 = n := by rw [hm]; exact Nat.mul_div_cancel n (by norm_num)
  omega

/-! ## The first sampling pass always suffices when tolerance is nonnegative -/

theorem clip01_nonneg (x : ℚ) : 0 ≤ clip01 x := le_max_left 0 _

theorem clip01_le_one (x : ℚ) : clip01 x ≤ 1 := max_le (by norm_num) (min_le_left 1 x)

theorem validate_rgb_length (l : List (ℚ × ℚ × ℚ)) (tol : ℚ) :
    (validate_rgb l tol).length = l.countP (validRGB tol) := by
  simp [validate_rgb, List.countP_eq_length_filter]

theorem validate_rgb_mem_bounds (l : List (ℚ × ℚ × ℚ)) (tol : ℚ) :
    ∀ c ∈ validate_rgb l tol,
      0 ≤ c.1 ∧ c.1 ≤ 1 ∧ 0 ≤ c.2.1 ∧ c.2.1 ≤ 1 ∧ 0 ≤ c.2.2 ∧ c.2.2 ≤ 1 := by
  intro c hc
  simp only [validate_rgb, List.mem_map] at hc
  obtain ⟨c', -, rfl⟩ := hc
  exact ⟨clip01_nonneg _, clip01_le_one _, clip01_nonneg _, clip01_le_one _,
    clip01_nonneg _, clip01_le_one _⟩

theorem countP_valid_id (m : ℕ) (seed tol : ℚ) :
    (low_discrepancy3 m seed).countP (validRGB tol)
      = (List.range m).countP (fun i => validRGB tol (ldPoint seed i)) := by
  simp [low_discrepancy3, List.countP_map, Function.comp_def]

theorem rawCandidates_rgb_enough (labc luvc : ℚ × ℚ × ℚ → ℚ × ℚ × ℚ) (n : ℕ)
    (hn : 1 ≤ n) (tol seed : ℚ) (htol : 0 ≤ tol) :
    n ≤ ((rawCandidates labc luvc .rgb (n * (6 * 2 ^ 0)) seed).countP (validRGB tol)) := by
  show n ≤ ((low_discrepancy3 (n * (6 * 2 ^ 0)) seed).countP (validRGB tol))
  rw [countP_valid_id]
  have h6 : n * (6 * 2 ^ 0) = n * 6 := by norm_num
  rw [h6]
  exact valid_count_ge n hn tol seed htol

theorem if_branch_helper (n : ℕ) (raw : List (ℚ × ℚ × ℚ)) (tol : ℚ)
    (other : Option (List (ℚ × ℚ × ℚ)))
    (h : n ≤ (validate_rgb raw tol).length) :
    ∃ l, (if n ≤ (validate_rgb raw tol).length
           then some ((validate_rgb raw tol).take n) else other) = some l ∧
      l.length = n ∧
      ∀ c ∈ l, 0 ≤ c.1 ∧ c.1 ≤ 1 ∧ 0 ≤ c.2.1 ∧ c.2.1 ≤ 1 ∧ 0 ≤ c.2.2 ∧ c.2.2 ≤ 1 := by
  rw [if_pos h]
  refine ⟨_, rfl, ?_, ?_⟩
  · rw [List.length_take]
    exact min_eq_left h
  · intro c hc
    exact validate_rgb_mem_bounds _ _ c (List.take_subset _ _ hc)

theorem colorRandomLoop_of_enough (labc luvc : ℚ × ℚ × ℚ → ℚ × ℚ × ℚ) (n : ℕ)
    (cspace : Colorspace) (tol seed : ℚ) :
    ∀ k factor : ℕ,
      n ≤ ((rawCandidates labc luvc cspace (n * (factor * 2 ^ k)) seed).countP
        (validRGB tol)) →
      ∃ l, colorRandomLoop labc luvc n cspace tol seed (k + 1) factor = some l ∧
        l.length = n ∧
        ∀ c ∈ l, 0 ≤ c.1 ∧ c.1 ≤ 1 ∧ 0 ≤ c.2.1 ∧ c.2.1 ≤ 1 ∧ 0 ≤ c.2.2 ∧ c.2.2 ≤ 1 := by
  intro k
  induction k with
  | zero =>
    intro factor h
    rw [pow_zero, mul_one] at h
    simp only [colorRandomLoop]
    exact if_branch_helper n _ tol _ (by rw [validate_rgb_length]; exact h)
  | succ k ih =>
    intro factor h
    by_cases hnow :
        n ≤ (validate_rgb (rawCandidates labc luvc cspace (n * factor) seed) tol).length
    · simp only [colorRandomLoop]
      exact if_branch_helper n _ tol _ hnow
    · simp only [colorRandomLoop]
      rw [if_neg hnow]
      apply ih (factor * 2)
      have heq : n * (factor * 2 * 2 ^ k) = n * (factor * 2 ^ (k + 1)) := by ring
      rw [heq]
      exact h

/-- C6: for every `n ≥ 1`, every supported colorspace, every tolerance
`≥ 0`, every seed, and every pair of conversion functions standing in for
the (absent from `src/`) vendored `colorconv` conversions, `_color_random`
(the implementation of `sample_perceptual_colors`) returns exactly `n` RGB
triples whose channels all lie in `[0, 1]` — under the spec's guarantee
about those conversions, carried as the hypothesis `hacc`: some pass of
the factor-doubling rejection loop draws at least `n` in-gamut candidates
(the spec asserts this holds because the acceptance ratio is a positive
constant, about 1/5).  For the linear `rgb` space, which involves no
conversion, the guarantee is itself proved outright for every seed
(`rawCandidates_rgb_enough`); the witness discharges it for a genuinely
rejecting non-linear stand-in conversion. -/
theorem color_random_spec (labc luvc : ℚ × ℚ × ℚ → ℚ × ℚ × ℚ) (n : ℕ)
    (cspace : Colorspace) (tol seed : ℚ)
    (_hn : 1 ≤ n) (_htol : 0 ≤ tol)
    (hacc : ∃ k : ℕ, n ≤
      ((rawCandidates labc luvc cspace (n * (6 * 2 ^ k)) seed).countP (validRGB tol))) :
    ∃ fuel l, color_random labc luvc fuel n cspace tol seed = some l ∧
      l.length = n ∧
      ∀ c ∈ l, 0 ≤ c.1 ∧ c.1 ≤ 1 ∧ 0 ≤ c.2.1 ∧ c.2.1 ≤ 1 ∧ 0 ≤ c.2.2 ∧ c.2.2 ≤ 1 := by
  obtain ⟨k, hk⟩ := hacc
  obtain ⟨l, hl, hlen, hbounds⟩ :=
    colorRandomLoop_of_enough labc luvc n cspace tol seed k 6 hk
  exact ⟨k + 1, l, hl, hlen, hbounds⟩

/-- C6 witness: concrete instantiation of `color_random_spec` at `n = 2`,
colorspace 'lab', tolerance 0, seed 1/2, with the non-linear stand-in
conversions — which genuinely reject most of the 12 first-pass candidates
(the acceptance hypothesis is discharged by computation). -/
theorem color_random_spec_witness :
    ((1 : ℕ) ≤ 2 ∧ (0 : ℚ) ≤ 0 ∧
        ∃ k : ℕ, 2 ≤ ((rawCandidates lab2rgbModel luv2rgbModel .lab
          (2 * (6 * 2 ^ k)) (1/2)).countP (validRGB 0))) ∧
      ∃ fuel l, color_random lab2rgbModel luv2rgbModel fuel 2 .lab 0 (1/2) = some l ∧
        l.length = 2 ∧
        ∀ c ∈ l, 0 ≤ c.1 ∧ c.1 ≤ 1 ∧ 0 ≤ c.2.1 ∧ c.2.1 ≤ 1 ∧ 0 ≤ c.2.2 ∧ c.2.2 ≤ 1 :=
  ⟨⟨by norm_num, le_refl 0, ⟨0, by with_unfolding_all decide⟩⟩,
    color_random_spec lab2rgbModel luv2rgbModel 2 .lab 0 (1/2) (by norm_num) (le_refl 0)
      ⟨0, by with_unfolding_all decide⟩⟩

/-! ## C1: shape of `label_colormap` -/

theorem linspace_length (a b : ℚ) (num : ℕ) : (linspace a b num).length = num := by
  unfold linspace
  split
  · simp [*]
  · simp

theorem linspace_mem_bounds (a b : ℚ) (num : ℕ) (hab : a ≤ b) :
    ∀ x ∈ linspace a b num, a ≤ x ∧ x ≤ b := by
  intro x hx
  unfold linspace at hx
  split at hx
  · rw [List.mem_singleton] at hx
    exact ⟨by rw [hx], by rw [hx]; exact hab⟩
  · rename_i hnum
    simp only [List.mem_map, List.mem_range] at hx
    obtain ⟨i, hi, rfl⟩ := hx
    have h0 : num ≠ 0 := by omega
    have hnum2 : 2 ≤ num := by omega
    have hden : (0 : ℚ) < (num : ℚ) - 1 := by
      have : (2 : ℚ) ≤ (num : ℚ) := by exact_mod_cast hnum2
      linarith
    have hd : 0 ≤ (b - a) / ((num : ℚ) - 1) := div_nonneg (by linarith) (le_of_lt hden)
    constructor
    · have : 0 ≤ (i : ℚ) * ((b - a) / ((num : ℚ) - 1)) :=
        mul_nonneg (Nat.cast_nonneg i) hd
      linarith
    · have hcast : (i : ℚ) + 1 ≤ (num : ℚ) := by exact_mod_cast hi
      have hle : (i : ℚ) ≤ (num : ℚ) - 1 := by linarith
      have hmul : (i : ℚ) * ((b - a) / ((num : ℚ) - 1))
          ≤ ((num : ℚ) - 1) * ((b - a) / ((num : ℚ) - 1)) :=
        mul_le_mul_of_nonneg_right hle hd
      have hcancel : ((num : ℚ) - 1) * ((b - a) / ((num : ℚ) - 1)) = b - a := by
        rw [mul_comm]
        exact div_mul_cancel₀ _ hden.ne'
      linarith [hmul, hcancel.le]

theorem linspace_pairwise (a b : ℚ) (num : ℕ) (hab : a < b) :
    List.Pairwise (fun x y => x < y) (linspace a b num) := by
  unfold linspace
  split
  · simp
  · rename_i hnum
    by_cases h0 : num = 0
    · subst h0
      simp
    have hnum2 : 2 ≤ num := by omega
    have hden : (0 : ℚ) < (num : ℚ) - 1 := by
      have : (2 : ℚ) ≤ (num : ℚ) := by exact_mod_cast hnum2
      linarith
    have hd : 0 < (b - a) / ((num : ℚ) - 1) := div_pos (by linarith) hden
    rw [List.pairwise_map]
    apply List.Pairwise.imp ?_ (List.pairwise_lt_range num)
    intro i j hij
    have hcast : (i : ℚ) < (j : ℚ) := by exact_mod_cast hij
    have := mul_lt_mul_of_pos_right hcast hd
    linarith

/-- C1 (amended): for every `num_colors ≥ 2`, every seed, and every pair
of conversion functions standing in for the absent `colorconv` code
(under the spec's acceptance guarantee `hacc` about them, exactly as in
`color_random_spec`), `label_colormap` returns a Colormap with exactly
`num_colors` colors but `num_colors + 1` controls (one more than the
claim states; napari's zero-order-hold colormaps use `len(colors) + 1`
bin edges), where `colors[0]` is RGBA `(0,0,0,0)`, the first control is
`0.0`, the last control is `1.0`, the controls are strictly increasing,
and the interpolation is zero-order-hold.  The interior controls are the
`num_colors - 1` points `linspace(0.00001, 1 - 0.00001, num_colors - 1)`,
so for `num_colors = 5` they sit near thirds, not quarters. -/
theorem label_colormap_spec (labc luvc : ℚ × ℚ × ℚ → ℚ × ℚ × ℚ)
    (num_colors : ℕ) (seed : ℚ) (hn : 2 ≤ num_colors)
    (hacc : ∃ k : ℕ, num_colors ≤
      ((rawCandidates labc luvc .lab (num_colors * (6 * 2 ^ k)) seed).countP
        (validRGB 0))) :
    ∃ fuel cm, label_colormap labc luvc fuel num_colors seed = some cm ∧
      cm.colors.length = num_colors ∧
      cm.controls.length = num_colors + 1 ∧
      cm.colors.head? = some [0, 0, 0, 0] ∧
      cm.controls.head? = some 0 ∧
      cm.controls.getLast? = some 1 ∧
      List.Pairwise (fun x y => x < y) cm.controls ∧
      cm.interpolation = Interp.zero := by
  obtain ⟨fuel, l, hl, hlen, -⟩ :=
    color_random_spec labc luvc num_colors .lab 0 seed (by omega) (le_refl 0) hacc
  refine ⟨fuel, ?_⟩
  unfold label_colormap
  rw [hl]
  simp only [Option.map_some']
  refine ⟨_, rfl, ?_, ?_, ?_, ?_, ?_, ?_, rfl⟩
  · cases l with
    | nil => simp at hlen; omega
    | cons hd tl =>
      simp only [List.map_cons, List.length_cons]
      simp only [List.length_cons] at hlen
      simpa using hlen
  · simp only [List.length_cons, List.length_append, linspace_length, List.length_nil]
    omega
  · cases l with
    | nil => simp at hlen; omega
    | cons hd tl => rfl
  · rfl
  · rw [show ((0 : ℚ) :: (linspace 0.00001 (1 - 0.00001) (num_colors - 1) ++ [1]))
        = ((0 :: linspace 0.00001 (1 - 0.00001) (num_colors - 1)) ++ [1]) from rfl]
    exact List.getLast?_concat _
  · have hb : (0.00001 : ℚ) < 1 - 0.00001 := by norm_num
    have hbounds := linspace_mem_bounds 0.00001 (1 - 0.00001) (num_colors - 1) hb.le
    rw [List.pairwise_cons]
    constructor
    · intro x hx
      rcases List.mem_append.mp hx with hx | hx
      · have := (hbounds x hx).1
        norm_num at this ⊢
        linarith
      · rw [List.mem_singleton] at hx
        subst hx
        norm_num
    · rw [List.pairwise_append]
      refine ⟨linspace_pairwise _ _ _ hb, by simp, ?_⟩
      intro x hx y hy
      rw [List.mem_singleton] at hy
      subst hy
      have := (hbounds x hx).2
      norm_num at this ⊢
      linarith

/-- C1 witness: concrete instantiation of `label_colormap_spec` with the
genuinely rejecting non-linear stand-in conversions; the acceptance
hypothesis is discharged by computation. -/
theorem label_colormap_spec_witness :
    ((2 : ℕ) ≤ 2 ∧
        ∃ k : ℕ, 2 ≤ ((rawCandidates lab2rgbModel luv2rgbModel .lab
          (2 * (6 * 2 ^ k)) (1/2)).countP (validRGB 0))) ∧
      ∃ fuel cm, label_colormap lab2rgbModel luv2rgbModel fuel 2 (1/2) = some cm ∧
        cm.colors.length = 2 ∧
        cm.controls.length = 2 + 1 ∧
        cm.colors.head? = some [0, 0, 0, 0] ∧
        cm.controls.head? = some 0 ∧
        cm.controls.getLast? = some 1 ∧
        List.Pairwise (fun x y => x < y) cm.controls ∧
        cm.interpolation = Interp.zero :=
  ⟨⟨le_refl 2, ⟨0, by with_unfolding_all decide⟩⟩,
    label_colormap_spec lab2rgbModel luv2rgbModel 2 (1/2) (le_refl 2)
      ⟨0, by with_unfolding_all decide⟩⟩

/-- C1 counterexample: a concrete run of `label_colormap(5, seed=0.5)`
returns SIX control points, not the five the claim states.  The absent
conversions are instantiated with the genuinely rejecting non-linear
stand-ins (which discard most of the 30 first-pass candidates); the
control vector `[0] ++ linspace(1e-5, 1 - 1e-5, 4) ++ [1]` is built before
sampling and does not depend on the conversions at all. -/
theorem label_colormap_five_controls_cex :
    (label_colormap lab2rgbModel luv2rgbModel 1 5 (1/2)).map
        (fun cm => cm.controls.length) = some 6 ∧
      (label_colormap lab2rgbModel luv2rgbModel 1 5 (1/2)).map
        (fun cm => cm.controls.length) ≠ some 5 := by
  constructor
  · with_unfolding_all decide
  · with_unfolding_all decide

/-! ## C4: freshness of `increment_unnamed_colormap` -/

theorem digitChar_toNat (d : ℕ) (hd : d < 10) : (digitChar d).toNat = 48 + d := by
  interval_cases d <;> with_unfolding_all decide

theorem natChars_foldl (n : ℕ) : ∀ acc : ℕ,
    (natChars n).foldl (fun a c => 10 * a + (c.toNat - 48)) acc
      = acc * 10 ^ (natChars n).length + n := by
  induction n using Nat.strong_induction_on with
  | _ n ih =>
    intro acc
    rw [natChars]
    split
    · rename_i h
      simp only [List.foldl_cons, List.foldl_nil, List.length_singleton,
        digitChar_toNat n h, pow_one]
      omega
    · rename_i h
      rw [List.foldl_append]
      rw [ih (n / 10) (Nat.div_lt_self (by omega) (by omega))]
      simp only [List.foldl_cons, List.foldl_nil, List.length_append,
        List.length_singleton, digitChar_toNat (n % 10) (Nat.mod_lt n (by omega))]
      rw [pow_succ]
      have hdm := Nat.div_add_mod n 10
      have hsub : 48 + n % 10 - 48 = n % 10 := by omega
      rw [hsub]
      ring_nf
      omega

/-- Decimal parse, the inverse of `natChars`, used only to establish that
`natChars` is injective. -/
def parseNat (cs : List Char) : ℕ :=
  cs.foldl (fun acc c => 10 * acc + (c.toNat - 48)) 0

theorem parseNat_natChars (n : ℕ) : parseNat (natChars n) = n := by
  have := natChars_foldl n 0
  simpa [parseNat] using this

theorem natChars_inj {m n : ℕ} (h : natChars m = natChars n) : m = n := by
  have hm := parseNat_natChars m
  rw [h, parseNat_natChars] at hm
  omega

theorem bracketName_inj {m n : ℕ} (h : bracketName m = bracketName n) : m = n := by
  unfold bracketName at h
  have h1 := List.append_cancel_right h
  have h2 := List.append_cancel_left h1
  exact natChars_inj h2

theorem strStartsWith_nil (s : PyStr) : strStartsWith s [] = true := by
  cases s <;> rfl

theorem strStartsWith_append (pre rest : PyStr) :
    strStartsWith (pre ++ rest) pre = true := by
  induction pre with
  | nil => exact strStartsWith_nil _
  | cons c s ih => simp [strStartsWith, ih]

theorem bracketName_startsWith (k : ℕ) :
    strStartsWith (bracketName k) unnamedPre = true := by
  have hpre : "[unnamed colormap ".toList = unnamedPre ++ [' '] := by
    with_unfolding_all rfl
  unfold bracketName
  rw [hpre]
  simp only [List.append_assoc]
  exact strStartsWith_append unnamedPre _

/-- The registry-name history after `k` successive unnamed registrations:
each returned name is added (most recent first) to the existing names
before the next call. -/
def unnamedIter (existing : List PyStr) : ℕ → List PyStr
  | 0 => existing
  | k + 1 => increment_unnamed_colormap (unnamedIter existing k) :: unnamedIter existing k

theorem unnamedIter_filter (existing : List PyStr)
    (h : existing.filter (fun s => strStartsWith s unnamedPre) = []) :
    ∀ k : ℕ, (unnamedIter existing k).filter (fun s => strStartsWith s unnamedPre)
      = ((List.range k).reverse).map bracketName := by
  intro k
  induction k with
  | zero =>
    rw [show unnamedIter existing 0 = existing from rfl, h]
    rfl
  | succ k ih =>
    have hname : increment_unnamed_colormap (unnamedIter existing k) = bracketName k := by
      unfold increment_unnamed_colormap
      rw [if_pos rfl, ih]
      simp
    rw [unnamedIter, List.filter_cons, hname]
    rw [if_pos (bracketName_startsWith k), ih]
    rw [List.range_succ, List.reverse_append]
    simp

theorem unnamedIter_increment (existing : List PyStr)
    (h : existing.filter (fun s => strStartsWith s unnamedPre) = []) (k : ℕ) :
    increment_unnamed_colormap (unnamedIter existing k) = bracketName k := by
  unfold increment_unnamed_colormap
  rw [if_pos rfl, unnamedIter_filter existing h k]
  simp

/-- C4 (amended): the name returned by `increment_unnamed_colormap` is
fresh provided the existing auto-named entries are exactly those produced
by earlier successive calls: starting from any name list with no
`'[unnamed colormap'`-prefixed member and adding each returned name before
the next call, the `k`-th call returns `'[unnamed colormap k]'`, which is
not yet a member — for arbitrarily many successive calls.  For arbitrary
existing lists the claim fails (see the counterexample
`increment_unnamed_colormap_collision`). -/
theorem increment_unnamed_colormap_fresh (existing : List PyStr) (k : ℕ)
    (h : existing.filter (fun s => strStartsWith s unnamedPre) = []) :
    increment_unnamed_colormap (unnamedIter existing k) = bracketName k ∧
      bracketName k ∉ unnamedIter existing k := by
  refine ⟨unnamedIter_increment existing h k, ?_⟩
  intro hmem
  have hf : bracketName k ∈ (unnamedIter existing k).filter
      (fun s => strStartsWith s unnamedPre) :=
    List.mem_filter.mpr ⟨hmem, bracketName_startsWith k⟩
  rw [unnamedIter_filter existing h k] at hf
  simp only [List.mem_map, List.mem_reverse, List.mem_range] at hf
  obtain ⟨i, hik, hbi⟩ := hf
  have := bracketName_inj hbi
  omega

/-- C4 witness: concrete instantiation of
`increment_unnamed_colormap_fresh`. -/
theorem increment_unnamed_colormap_fresh_witness :
    (["red".toList, "green".toList].filter (fun s => strStartsWith s unnamedPre) = []) ∧
      (increment_unnamed_colormap (unnamedIter ["red".toList, "green".toList] 3)
          = bracketName 3 ∧
        bracketName 3 ∉ unnamedIter ["red".toList, "green".toList] 3) :=
  ⟨by with_unfolding_all decide,
    increment_unnamed_colormap_fresh ["red".toList, "green".toList] 3
      (by with_unfolding_all decide)⟩

/-- C4 counterexample: with `existing = ['[unnamed colormap 1]']` the
returned name `'[unnamed colormap 1]'` is already a member of the existing
list, refuting the unconditional freshness claim. -/
theorem increment_unnamed_colormap_collision :
    increment_unnamed_colormap ["[unnamed colormap 1]".toList]
        = "[unnamed colormap 1]".toList ∧
      "[unnamed colormap 1]".toList ∈ ["[unnamed colormap 1]".toList] := by
  constructor
  · with_unfolding_all decide
  · exact List.mem_singleton_self _

/-! ## C9: empty mapping -/

/-- C9: resolving an empty mapping fails with `ValueError` (the spec's
`InvalidArgument` kind), never with `TypeError` (`TypeMismatch`), and
leaves the registry exactly unchanged, for every registry state. -/
theorem ensure_colormap_empty_dict (R : Registry) :
    ensure_colormap R (.dict []) = (.error .valueError, R) := rfl

/-! ## C7: listing order of the registry -/

/-- Boolean check that a name listing is strictly alphabetically sorted. -/
def namesSortedB : List PyStr → Bool
  | [] => true
  | [_] => true
  | x :: y :: t => nameLtB x y && namesSortedB (y :: t)

/-- C7 (amended): the initial built-in registry listing is alphabetically
sorted, but a successful registration of a fresh name appends it at the
end of the dict iteration order, so alphabetical order is NOT an invariant
of registry operations: it survives only insertions whose name sorts after
every existing key (see `registry_sorted_not_invariant_cex`). -/
theorem registry_sorted_initial_and_append (c : Colormap) (R : Registry)
    (hfresh : ¬ ((dictKeys R).contains c.name = true)) :
    namesSortedB (dictKeys AVAILABLE_COLORMAPS) = true ∧
      dictKeys (ensure_colormap R (.cm c)).2 = dictKeys R ++ [c.name] := by
  constructor
  · with_unfolding_all decide
  · simp only [ensure_colormap, dictSet]
    rw [if_neg hfresh]
    simp [dictKeys]

/-- C7 witness: concrete instantiation of
`registry_sorted_initial_and_append`. -/
theorem registry_sorted_initial_and_append_witness :
    (¬ ((dictKeys AVAILABLE_COLORMAPS).contains "zzz".toList = true)) ∧
      (namesSortedB (dictKeys AVAILABLE_COLORMAPS) = true ∧
        dictKeys (ensure_colormap AVAILABLE_COLORMAPS
            (.cm { name := "zzz".toList, colors := [[1, 1, 1, 1]], controls := [],
                   interpolation := .linear })).2
          = dictKeys AVAILABLE_COLORMAPS ++ ["zzz".toList]) :=
  ⟨by with_unfolding_all decide,
    registry_sorted_initial_and_append
      { name := "zzz".toList, colors := [[1, 1, 1, 1]], controls := [],
        interpolation := .linear }
      AVAILABLE_COLORMAPS (by with_unfolding_all decide)⟩

/-- C7 counterexample: one successful registration starting from the
initial registry (a colormap named 'aaa') leaves the listing unsorted,
refuting the claimed invariant. -/
theorem registry_sorted_not_invariant_cex :
    (ensure_colormap AVAILABLE_COLORMAPS
        (.cm { name := "aaa".toList, colors := [[1, 1, 1, 1]], controls := [],
               interpolation := .linear })).1 = .ok "aaa".toList ∧
      namesSortedB (dictKeys (ensure_colormap AVAILABLE_COLORMAPS
        (.cm { name := "aaa".toList, colors := [[1, 1, 1, 1]], controls := [],
               interpolation := .linear })).2) = false := by
  constructor
  · with_unfolding_all decide
  · with_unfolding_all decide


/-! ## C8: failed resolution never mutates the registry -/

/-- C8: registry resolution is atomic with respect to errors — whenever
`ensure_colormap` fails (unknown string name, malformed tuple, mapping with
unrecognized values, empty mapping, or unsupported input type), the
registry after the call is exactly the registry before the call. -/
theorem ensure_colormap_error_atomic (R : Registry) (arg : CmArg) (e : PyErr)
    (h : (ensure_colormap R arg).1 = .error e) :
    (ensure_colormap R arg).2 = R := by
  cases arg with
  | str nm =>
    simp only [ensure_colormap] at h ⊢
    by_cases hc : (dictKeys R).contains nm = true
    · rw [if_pos hc]
    · rw [if_neg hc] at h ⊢
      cases hcat : vispy_or_mpl_colormap nm with
      | error e2 => rfl
      | ok cmap => simp [hcat] at h
  | cm c =>
    simp only [ensure_colormap] at h
    simp at h
  | vispy vc =>
    simp only [ensure_colormap, ensure_vispy] at h
    simp at h
  | tup items =>
    rcases items with _ | ⟨i1, _ | ⟨i2, _ | ⟨i3, rest⟩⟩⟩
    · rfl
    · cases i1 <;> rfl
    · cases i1 <;> cases i2 <;>
        first
        | rfl
        | (simp only [ensure_colormap] at h; simp at h)
    · cases i1 <;> cases i2 <;> rfl
  | dict entries =>
    simp only [ensure_colormap] at h ⊢
    by_cases hcolors : dictHasRawColors entries = true
    · rw [if_pos hcolors] at h ⊢
      cases hkw : colormapKwargs entries with
      | error e2 => rfl
      | ok cmap => simp [hkw] at h
    · rw [if_neg hcolors] at h ⊢
      by_cases hraw : entries.any isRawVal = true
      · rw [if_pos hraw]
      · rw [if_neg hraw] at h ⊢
        cases entries with
        | nil =>
          show dictUpdate R [] = R
          rfl
        | cons e0 es => simp at h
  | other =>
    rfl

/-- C8 witness: concrete instantiation of `ensure_colormap_error_atomic`
at an unsupported input type. -/
theorem ensure_colormap_error_atomic_witness :
    ((ensure_colormap AVAILABLE_COLORMAPS CmArg.other).1 = .error .typeError) ∧
      (ensure_colormap AVAILABLE_COLORMAPS CmArg.other).2 = AVAILABLE_COLORMAPS :=
  ⟨rfl, ensure_colormap_error_atomic AVAILABLE_COLORMAPS CmArg.other .typeError rfl⟩

/-! ## C5: dedup-by-value of unnamed foreign colormaps -/

theorem vispyEq_convert (vc : VispyCmap) (nm : PyStr) :
    vispyEqColormap vc (convert_vispy_colormap vc nm) = true := by
  simp [vispyEqColormap, convert_vispy_colormap]

theorem increment_default_eq (l : List PyStr) :
    increment_unnamed_colormap l
      = bracketName (l.filter (fun s => strStartsWith s unnamedPre)).length := by
  unfold increment_unnamed_colormap
  rw [if_pos rfl]

theorem bracketName_ne_nil (k : ℕ) : bracketName k ≠ [] := by
  unfold bracketName
  intro h
  have hpre : "[unnamed colormap ".toList = '[' :: "unnamed colormap ".toList := by
    with_unfolding_all rfl
  rw [hpre] at h
  simp at h

/-- After overwriting the entries keyed `k` with a value that matches the
scan predicate, the scan still returns the key `k` whenever it returned
`k` before the overwrite. -/
theorem find?_overwrite_found (p : PyStr × Colormap → Bool) (conv : Colormap) (k : PyStr)
    (hconv : p (k, conv) = true) :
    ∀ R : Registry,
      ((R.find? p).map Prod.fst = some k) →
      (((R.map (fun pr => if pr.1 = k then (k, conv) else pr)).find? p).map Prod.fst
        = some k) := by
  intro R
  induction R with
  | nil => intro h; simp [List.find?] at h
  | cons x xs ih =>
    intro h
    rw [List.map_cons]
    by_cases hx : p x = true
    · rw [List.find?_cons_of_pos _ hx] at h
      simp only [Option.map_some', Option.some.injEq] at h
      rw [if_pos h]
      rw [List.find?_cons_of_pos _ hconv]
      simp
    · rw [List.find?_cons_of_neg _ hx] at h
      by_cases hxk : x.1 = k
      · rw [if_pos hxk]
        rw [List.find?_cons_of_pos _ hconv]
        simp
      · rw [if_neg hxk]
        rw [List.find?_cons_of_neg _ hx]
        exact ih h

/-- If the scan found nothing and a matching entry is appended, the scan
finds exactly the appended entry. -/
theorem find?_append_found (p : PyStr × Colormap → Bool) (x : PyStr × Colormap) :
    ∀ R : Registry, R.find? p = none → p x = true →
      (R ++ [x]).find? p = some x := by
  intro R
  induction R with
  | nil =>
    intro _ hx
    simpa [List.find?] using List.find?_cons_of_pos ([] : Registry) hx
  | cons y ys ih =>
    intro hnone hx
    rw [List.find?_eq_none] at hnone
    have hy : ¬ p y = true := hnone y (by simp)
    rw [List.cons_append, List.find?_cons_of_neg _ hy]
    refine ih ?_ hx
    rw [List.find?_eq_none]
    intro z hz
    exact hnone z (by simp [hz])

/-- If the scan found nothing but the synthesized key already exists, the
overwrite makes its first occurrence match, and the scan returns it. -/
theorem find?_overwrite_new (p : PyStr × Colormap → Bool) (conv : Colormap) (u : PyStr)
    (hconv : p (u, conv) = true) :
    ∀ R : Registry, R.find? p = none →
      u ∈ dictKeys R →
      (((R.map (fun pr => if pr.1 = u then (u, conv) else pr)).find? p).map Prod.fst
        = some u) := by
  intro R
  induction R with
  | nil => intro _ hu; simp [dictKeys] at hu
  | cons x xs ih =>
    intro hnone hu
    rw [List.find?_eq_none] at hnone
    have hx : ¬ p x = true := hnone x (by simp)
    rw [List.map_cons]
    by_cases hxu : x.1 = u
    · rw [if_pos hxu]
      rw [List.find?_cons_of_pos _ hconv]
      simp
    · rw [if_neg hxu]
      rw [List.find?_cons_of_neg _ hx]
      refine ih ?_ ?_
      · rw [List.find?_eq_none]
        intro z hz
        exact hnone z (by simp [hz])
      · simp only [dictKeys, List.map_cons, List.mem_cons] at hu
        rcases hu with hu | hu
        · exact absurd hu.symm hxu
        · exact hu

theorem ensure_vispy_found (R : Registry) (vc : VispyCmap) (k : PyStr)
    (hk : (R.find? (fun p => vispyEqColormap vc p.2)).map Prod.fst = some k)
    (hne : ¬ (k = [])) :
    ensure_vispy R vc = (.ok k, dictSet R k (convert_vispy_colormap vc k)) := by
  unfold ensure_vispy
  rw [hk]
  simp only [if_neg hne]

theorem ensure_vispy_notfound (R : Registry) (vc : VispyCmap)
    (hk : R.find? (fun p => vispyEqColormap vc p.2) = none) :
    ensure_vispy R vc = (.ok (increment_unnamed_colormap (dictKeys R)),
      dictSet R (increment_unnamed_colormap (dictKeys R))
        (convert_vispy_colormap vc (increment_unnamed_colormap (dictKeys R)))) := by
  unfold ensure_vispy
  rw [hk]
  rfl

/-- C5 (amended): resolving the same foreign (vispy-style) colormap twice
in succession returns the same canonical name both times — the entry is
deduplicated by value — provided no registry key is the empty string.
(Python truthiness: a found name that is the empty string is treated as
not found, in which case a second distinct auto-generated name IS created;
see `ensure_colormap_vispy_dedup_cex`.) -/
theorem ensure_colormap_vispy_dedup (R : Registry) (vc : VispyCmap)
    (hkeys : [] ∉ dictKeys R) :
    (ensure_colormap (ensure_colormap R (.vispy vc)).2 (.vispy vc)).1
      = (ensure_colormap R (.vispy vc)).1 := by
  show (ensure_vispy (ensure_vispy R vc).2 vc).1 = (ensure_vispy R vc).1
  cases hfind : R.find? (fun p => vispyEqColormap vc p.2) with
  | some pr =>
    have hmem : pr.1 ∈ dictKeys R :=
      List.mem_map_of_mem Prod.fst (List.mem_of_find?_eq_some hfind)
    have hne : ¬ (pr.1 = []) := fun h => hkeys (h ▸ hmem)
    have h1 := ensure_vispy_found R vc pr.1 (by rw [hfind]; rfl) hne
    rw [h1]
    have hcontains : (dictKeys R).contains pr.1 = true := List.elem_iff.mpr hmem
    have h2 : dictSet R pr.1 (convert_vispy_colormap vc pr.1)
        = R.map (fun q => if q.1 = pr.1
            then (pr.1, convert_vispy_colormap vc pr.1) else q) := by
      unfold dictSet
      rw [if_pos hcontains]
    have hfind2 :
        (((dictSet R pr.1 (convert_vispy_colormap vc pr.1)).find?
            (fun p => vispyEqColormap vc p.2)).map Prod.fst) = some pr.1 := by
      rw [h2]
      exact find?_overwrite_found (fun p => vispyEqColormap vc p.2)
        (convert_vispy_colormap vc pr.1) pr.1 (vispyEq_convert vc pr.1) R
        (by rw [hfind]; rfl)
    rw [ensure_vispy_found _ vc pr.1 hfind2 hne]
  | none =>
    have h1 := ensure_vispy_notfound R vc hfind
    rw [h1]
    have hu : increment_unnamed_colormap (dictKeys R)
        = bracketName ((dictKeys R).filter (fun s => strStartsWith s unnamedPre)).length :=
      increment_default_eq _
    have hune : ¬ (increment_unnamed_colormap (dictKeys R) = []) := by
      rw [hu]
      exact bracketName_ne_nil _
    by_cases hc : (dictKeys R).contains (increment_unnamed_colormap (dictKeys R)) = true
    · have humem : increment_unnamed_colormap (dictKeys R) ∈ dictKeys R :=
        List.elem_iff.mp hc
      have h2 : dictSet R (increment_unnamed_colormap (dictKeys R))
            (convert_vispy_colormap vc (increment_unnamed_colormap (dictKeys R)))
          = R.map (fun q => if q.1 = increment_unnamed_colormap (dictKeys R)
              then (increment_unnamed_colormap (dictKeys R),
                convert_vispy_colormap vc (increment_unnamed_colormap (dictKeys R)))
              else q) := by
        unfold dictSet
        rw [if_pos hc]
      have hfind2 :
          (((dictSet R (increment_unnamed_colormap (dictKeys R))
              (convert_vispy_colormap vc (increment_unnamed_colormap (dictKeys R)))).find?
                (fun p => vispyEqColormap vc p.2)).map Prod.fst)
            = some (increment_unnamed_colormap (dictKeys R)) := by
        rw [h2]
        exact find?_overwrite_new (fun p => vispyEqColormap vc p.2)
          (convert_vispy_colormap vc (increment_unnamed_colormap (dictKeys R)))
          (increment_unnamed_colormap (dictKeys R))
          (vispyEq_convert vc _) R hfind humem
      rw [ensure_vispy_found _ vc _ hfind2 hune]
    · have h2 : dictSet R (increment_unnamed_colormap (dictKeys R))
            (convert_vispy_colormap vc (increment_unnamed_colormap (dictKeys R)))
          = R ++ [(increment_unnamed_colormap (dictKeys R),
              convert_vispy_colormap vc (increment_unnamed_colormap (dictKeys R)))] := by
        unfold dictSet
        rw [if_neg hc]
      have hfind2 :
          (((dictSet R (increment_unnamed_colormap (dictKeys R))
              (convert_vispy_colormap vc (increment_unnamed_colormap (dictKeys R)))).find?
                (fun p => vispyEqColormap vc p.2)).map Prod.fst)
            = some (increment_unnamed_colormap (dictKeys R)) := by
        rw [h2]
        rw [find?_append_found (fun p => vispyEqColormap vc p.2) _ R hfind
          (vispyEq_convert vc _)]
        rfl
      rw [ensure_vispy_found _ vc _ hfind2 hune]

/-- C5 witness: concrete instantiation of `ensure_colormap_vispy_dedup` on
the initial registry. -/
theorem ensure_colormap_vispy_dedup_witness :
    ([] ∉ dictKeys AVAILABLE_COLORMAPS) ∧
      (ensure_colormap
          (ensure_colormap AVAILABLE_COLORMAPS
            (.vispy { colors := [[1, 0, 0, 1]], controls := none,
                      interpolation := none })).2
          (.vispy { colors := [[1, 0, 0, 1]], controls := none,
                    interpolation := none })).1
        = (ensure_colormap AVAILABLE_COLORMAPS
            (.vispy { colors := [[1, 0, 0, 1]], controls := none,
                      interpolation := none })).1 :=
  ⟨by with_unfolding_all decide,
    ensure_colormap_vispy_dedup AVAILABLE_COLORMAPS
      { colors := [[1, 0, 0, 1]], controls := none, interpolation := none }
      (by with_unfolding_all decide)⟩

/-- C5 counterexample: if the registry holds a structurally equal value
under the empty-string key, Python's `if not name` treats the found name
as missing, and the two resolutions create two distinct auto-generated
names. -/
theorem ensure_colormap_vispy_dedup_cex :
    (ensure_colormap
        (ensure_colormap
          [([], { name := [], colors := [[1, 0, 0, 1]], controls := [],
                  interpolation := Interp.linear })]
          (.vispy { colors := [[1, 0, 0, 1]], controls := none,
                    interpolation := none })).2
        (.vispy { colors := [[1, 0, 0, 1]], controls := none,
                  interpolation := none })).1
      ≠ (ensure_colormap
          [([], { name := [], colors := [[1, 0, 0, 1]], controls := [],
                  interpolation := Interp.linear })]
          (.vispy { colors := [[1, 0, 0, 1]], controls := none,
                    interpolation := none })).1 := by
  with_unfolding_all decide

/-! ## C10: single-color label dictionaries -/

theorem dedup_const (l : List (List ℚ)) (c : List ℚ) (hne : l ≠ [])
    (hall : ∀ x ∈ l, x = c) : l.dedup = [c] := by
  induction l with
  | nil => exact absurd rfl hne
  | cons x t ih =>
    have hx : x = c := hall x (by simp)
    subst hx
    cases t with
    | nil => simp
    | cons y u =>
      have hy : y = x := (hall y (by simp)).trans ((hall x (by simp)).symm)
      have hmem : x ∈ y :: u := by
        rw [hy]
        exact List.mem_cons_self x u
      rw [List.dedup_cons_of_mem hmem]
      exact ih (by simp) (fun z hz => hall z (List.mem_cons_of_mem x hz))

theorem npUnique_const (l : List (List ℚ)) (c : List ℚ) (hne : l ≠ [])
    (hall : ∀ x ∈ l, x = c) : npUnique l = [c] := by
  unfold npUnique
  rw [dedup_const l c hne hall]
  rfl

/-- C10: `color_dict_to_colormap` fails with `ZeroDivisionError` on every
non-empty label dictionary whose values are all the same color: the unique
color list has length 1, so the per-label fractional index computation
divides by `len(control_colors) - 1 == 0`. -/
theorem color_dict_to_colormap_single_color (colors : List (ℤ × List ℚ)) (c : List ℚ)
    (hne : colors ≠ []) (hall : ∀ p ∈ colors, p.2 = c) :
    color_dict_to_colormap colors = .error .zeroDivisionError := by
  have hvals : ∀ x ∈ colors.map Prod.snd, x = c := by
    intro x hx
    obtain ⟨p, hp, rfl⟩ := List.mem_map.mp hx
    exact hall p hp
  have hnev : colors.map Prod.snd ≠ [] := by simpa using hne
  have hu : npUnique (colors.map Prod.snd) = [c] := npUnique_const _ c hnev hvals
  unfold color_dict_to_colormap
  rw [hu]
  rfl

/-- C10 witness: concrete instantiation of
`color_dict_to_colormap_single_color`. -/
theorem color_dict_to_colormap_single_color_witness :
    (([((1 : ℤ), [(1 : ℚ), 0, 0, 1])] : List (ℤ × List ℚ)) ≠ [] ∧
        ∀ p ∈ ([((1 : ℤ), [(1 : ℚ), 0, 0, 1])] : List (ℤ × List ℚ)),
          p.2 = [(1 : ℚ), 0, 0, 1]) ∧
      color_dict_to_colormap [((1 : ℤ), [(1 : ℚ), 0, 0, 1])]
        = .error .zeroDivisionError :=
  ⟨⟨by simp, by simp⟩,
    color_dict_to_colormap_single_color [((1 : ℤ), [(1 : ℚ), 0, 0, 1])]
      [(1 : ℚ), 0, 0, 1] (by simp) (by simp)⟩
